import Mathlib

/-!
Verification development for the `remarkable-mcp` repository.

The definitions below are a shallow embedding of the Python sources under
`src/remarkable_mcp/` (`resources.py`, `sampling.py`, `extract.py`,
`usb_web.py`).  Pure functions become Lean functions; the stateful registry
and the background loader become explicit state passing; fallible
collaborators (document store, download, extraction, OCR engine) become
`Except`/`Option`-valued oracles supplied as parameters.  Python standard
library routines used by the sources (`str(n)`, `urllib.parse.quote` /
`unquote`, `difflib.SequenceMatcher`) are embedded from their documented
behaviour so that the repository functions can be stated faithfully.
-/

namespace RemarkableMCP

/-! ## Decimal rendering of naturals

Embedding of Python's `str(n)` for a natural number `n`, as used by the
f-strings in `resources.py` (`f"remarkable://{path}_{counter}.txt"`).
-/

/-- The character for a single decimal digit (`0 ≤ d ≤ 9`). -/
def digitChar : Nat → Char
  | 0 => '0' | 1 => '1' | 2 => '2' | 3 => '3' | 4 => '4'
  | 5 => '5' | 6 => '6' | 7 => '7' | 8 => '8' | _ => '9'

/-- Little-endian decimal digits, structurally recursive on a fuel
argument so that the kernel can evaluate it (`decDigitsAux_fuel_free`
shows the fuel used by `decDigits` always suffices). -/
def decDigitsAux : Nat → Nat → List Char
  | _, 0 => []
  | 0, _ + 1 => []
  | fuel + 1, n + 1 => digitChar ((n + 1) % 10) :: decDigitsAux fuel ((n + 1) / 10)

/-- Little-endian decimal digits of `n` (empty for `0`). -/
def decDigits (n : Nat) : List Char :=
  decDigitsAux n n

theorem decDigitsAux_fuel_free {fuel fuel' n : Nat} (h : n ≤ fuel) (h' : n ≤ fuel') :
    decDigitsAux fuel n = decDigitsAux fuel' n := by
  induction fuel generalizing fuel' n with
  | zero =>
    interval_cases n
    cases fuel' <;> rfl
  | succ f ih =>
    match n, fuel' with
    | 0, fuel' => cases fuel' <;> rfl
    | n + 1, 0 => omega
    | n + 1, f' + 1 =>
      simp only [decDigitsAux]
      congr 1
      exact ih (by omega) (by omega)

theorem decDigits_succ (n : Nat) :
    decDigits (n + 1) = digitChar ((n + 1) % 10) :: decDigits ((n + 1) / 10) := by
  show decDigitsAux (n + 1) (n + 1) = _
  rw [show decDigitsAux (n + 1) (n + 1)
      = digitChar ((n + 1) % 10) :: decDigitsAux n ((n + 1) / 10) from rfl]
  congr 1
  exact decDigitsAux_fuel_free (by omega) (le_refl _)

/-- Embedding of Python's `str(n)` for a natural number. -/
def strOfNat (n : Nat) : String :=
  if n = 0 then "0" else ⟨(decDigits n).reverse⟩

/-- Numeric value of a little-endian decimal digit list; inverse of
`decDigits`, used only to prove injectivity of `strOfNat`. -/
def decValue : List Char → Nat
  | [] => 0
  | c :: cs => (c.toNat - 48) + 10 * decValue cs

theorem digitChar_toNat {d : Nat} (h : d < 10) : (digitChar d).toNat = 48 + d := by
  interval_cases d <;> rfl

theorem decValue_decDigits (n : Nat) : decValue (decDigits n) = n := by
  induction n using Nat.strong_induction_on with
  | _ n ih =>
    match n with
    | 0 => rfl
    | n + 1 =>
      rw [decDigits_succ, decValue]
      rw [ih ((n + 1) / 10) (Nat.div_lt_self (by omega) (by norm_num))]
      rw [digitChar_toNat (Nat.mod_lt _ (by norm_num))]
      omega

theorem decDigits_injective : Function.Injective decDigits := by
  intro a b h
  have ha := decValue_decDigits a
  have hb := decValue_decDigits b
  rw [h] at ha
  omega

theorem decDigits_ne_nil {n : Nat} (h : n ≠ 0) : decDigits n ≠ [] := by
  match n with
  | 0 => omega
  | n + 1 =>
    rw [decDigits_succ]
    simp

theorem strOfNat_data_pos (n : Nat) : 0 < (strOfNat n).data.length := by
  unfold strOfNat
  by_cases h : n = 0
  · simp [h]
  · simp only [h, if_false]
    have := decDigits_ne_nil h
    simpa [List.length_reverse, List.length_pos] using this

theorem decDigits_reverse_ne_zero_str {n : Nat} (hn : n ≠ 0)
    (h : (decDigits n).reverse = ['0']) : False := by
  have hd : decDigits n = ['0'] := by
    have := congrArg List.reverse h
    simpa using this
  have := decValue_decDigits n
  rw [hd] at this
  simp [decValue] at this
  exact hn this.symm

theorem strOfNat_injective : Function.Injective strOfNat := by
  intro a b h
  by_cases ha : a = 0 <;> by_cases hb : b = 0
  · omega
  · exfalso
    unfold strOfNat at h
    simp only [ha, if_true, hb, if_false] at h
    have hdata : (['0'] : List Char) = (decDigits b).reverse := congrArg String.data h
    exact decDigits_reverse_ne_zero_str hb hdata.symm
  · exfalso
    unfold strOfNat at h
    simp only [ha, if_false, hb, if_true] at h
    have hdata : ((decDigits a).reverse : List Char) = ['0'] := congrArg String.data h
    exact decDigits_reverse_ne_zero_str ha hdata
  · unfold strOfNat at h
    simp only [ha, if_false, hb, if_false] at h
    have hdata : (decDigits a).reverse = (decDigits b).reverse := congrArg String.data h
    have : decDigits a = decDigits b := by
      have := congrArg List.reverse hdata
      simpa using this
    exact decDigits_injective this

/-! ## Percent-encoding

Embedding of `urllib.parse.quote(s, safe="/")` as called in
`resources.py` line 191: every character outside the always-safe set
(ASCII letters, digits, `_ . - ~`) and outside `safe = "/"` is replaced
by `%XX` (uppercase hex) for each of its UTF-8 bytes.
-/

/-- Uppercase hexadecimal digit character (`0 ≤ d ≤ 15`). -/
def hexDigitChar : Nat → Char
  | 0 => '0' | 1 => '1' | 2 => '2' | 3 => '3' | 4 => '4'
  | 5 => '5' | 6 => '6' | 7 => '7' | 8 => '8' | 9 => '9'
  | 10 => 'A' | 11 => 'B' | 12 => 'C' | 13 => 'D' | 14 => 'E' | _ => 'F'

/-- Characters never percent-encoded by `quote(s, safe="/")`: the
always-safe ASCII alphanumerics and `_ . - ~`, plus the slash. -/
def isQuoteSafe (c : Char) : Bool :=
  c.isAlpha || c.isDigit || c = '_' || c = '.' || c = '-' || c = '~' || c = '/'

/-- Percent-encode one character (each UTF-8 byte becomes `%XX`). -/
def pyQuoteChar (c : Char) : List Char :=
  if isQuoteSafe c then [c]
  else (String.utf8EncodeChar c).foldr
    (fun b acc => '%' :: hexDigitChar (b.toNat / 16) :: hexDigitChar (b.toNat % 16) :: acc) []

/-- Embedding of Python's `urllib.parse.quote(s, safe="/")`. -/
def pyQuote (s : String) : String :=
  ⟨s.data.foldr (fun c acc => pyQuoteChar c ++ acc) []⟩

/-- Embedding of Python's `s.lstrip("/")`: drop all leading slashes. -/
def lstripSlash (s : String) : String :=
  ⟨s.data.dropWhile (fun c => c = '/')⟩

/-! ## Data model

`Item` is the common document/folder shape produced by the store
adapters (`usb_web.py` `Document` and the cloud client): the resource
layer reads `ID`, `VissibleName`, `is_folder`, `Parent` and
`ModifiedClient`.  Timestamps are kept as opaque strings.
-/

structure Item where
  ID : String
  VissibleName : String
  isFolder : Bool
  Parent : String
  ModifiedClient : Option String
deriving DecidableEq, Repr

/-- Modelled from the spec: `get_items_by_id` (from `remarkable_mcp.api`,
which is not included under `src/`): builds the map from item id to
resolved `Item` used for path lookups.  Modelled as an association list. -/
def get_items_by_id (items : List Item) : List (String × Item) :=
  items.map (fun it => (it.ID, it))

/-- First binding of `pid` in the association list, if any. -/
def lookupItem (idx : List (String × Item)) (pid : String) : Option Item :=
  (idx.find? (fun p => p.1 == pid)).map Prod.snd

/-- Fuel-bounded parent walk for `get_item_path` (fuel makes the walk
terminate even on a cyclic index, which the spec requires be tolerated). -/
def itemPathAux : Nat → List (String × Item) → Item → String
  | 0, _, it => "/" ++ it.VissibleName
  | fuel + 1, idx, it =>
    if it.Parent = "" then "/" ++ it.VissibleName
    else
      match lookupItem idx it.Parent with
      | none => "/" ++ it.VissibleName
      | some p => itemPathAux fuel idx p ++ "/" ++ it.VissibleName

/-- Modelled from the spec: `get_item_path` (from `remarkable_mcp.api`,
which is not included under `src/`): computes an item's full path by
walking `parent_id` links from the item to the root, joining display
names with `/`, and treating a missing or unknown parent as
root-attached rather than raising. -/
def get_item_path (it : Item) (idx : List (String × Item)) : String :=
  itemPathAux (idx.length + 1) idx it

/-! ## The document registry (`resources.py` lines 22-23 and 168-214)

The module-level sets `_registered_docs` (document ids) and
`_registered_uris` (resource URIs), together with the `mcp.resource`
registrations, are modelled as one chronological list of entries: an
entry records the id and URI inserted into the two sets by
`_register_document` plus the display name and description passed to
`mcp.resource`.  The two Python sets are exactly the two projections of
this list, and both are mutated together with no suspension point in
between (lines 208-213).
-/

structure RegEntry where
  docId : String
  uri : String
  label : String
  descr : String
deriving DecidableEq, Repr

/-- The registry state: entries in registration order. -/
abbrev Registry := List RegEntry

/-- The contents of the `_registered_docs` set. -/
def registeredDocs (r : Registry) : List String := r.map RegEntry.docId

/-- The contents of the `_registered_uris` set. -/
def registeredUris (r : Registry) : List String := r.map RegEntry.uri

/-- `full_path` as computed by `_register_document` (lines 179-185):
`get_item_path` when an index is supplied, else `"/" + doc.VissibleName`. -/
def fullPathOf (doc : Item) (idx : Option (List (String × Item))) : String :=
  match idx with
  | some i => get_item_path doc i
  | none => "/" ++ doc.VissibleName

/-- The percent-encoded path used to build the candidate URI (lines 190-191). -/
def encodedOf (doc : Item) (idx : Option (List (String × Item))) : String :=
  pyQuote (lstripSlash (fullPathOf doc idx))

/-- The `counter`-th candidate URI: `remarkable://{encoded}.txt` for
`counter = 0` (the base candidate of line 192), and
`remarkable://{encoded}_{counter}.txt` afterwards (line 200). -/
def candidateUri (encoded : String) : Nat → String
  | 0 => "remarkable://" ++ encoded ++ ".txt"
  | n + 1 => "remarkable://" ++ encoded ++ "_" ++ strOfNat (n + 1) ++ ".txt"

/-- The display name paired with the `counter`-th candidate URI:
`{full_path}.txt` initially (line 197), `{full_path} ({counter}).txt`
after a collision (line 201). -/
def candidateLabel (full_path : String) : Nat → String
  | 0 => full_path ++ ".txt"
  | n + 1 => full_path ++ " (" ++ strOfNat (n + 1) ++ ").txt"

/-- The collision-resolution `while` loop of lines 196-202: starting at
candidate `k`, advance while the candidate URI is already registered.
`fuel` bounds the recursion; `register_fresh_candidate_exists` shows that
the fuel used by `_register_document` always suffices. -/
def resolveUriLoop (encoded full_path : String) (uris : List String) :
    Nat → Nat → String × String
  | 0, k => (candidateUri encoded k, candidateLabel full_path k)
  | fuel + 1, k =>
    if candidateUri encoded k ∈ uris then
      resolveUriLoop encoded full_path uris fuel (k + 1)
    else
      (candidateUri encoded k, candidateLabel full_path k)

/-- The resource description of lines 204-206. -/
def descOf (full_path : String) (m : Option String) : String :=
  match m with
  | none => "Content from '" ++ full_path ++ "'"
  | some t => "Content from '" ++ full_path ++ "'" ++ " (modified: " ++ t ++ ")"

/-- Embedding of `_register_document` (`resources.py` lines 168-214).
Returns the Python return value and the updated registry. -/
def _register_document (reg : Registry) (doc : Item)
    (idx : Option (List (String × Item))) : Bool × Registry :=
  if doc.ID ∈ registeredDocs reg then (false, reg)
  else
    let full_path := fullPathOf doc idx
    let encoded := encodedOf doc idx
    let uris := registeredUris reg
    let fd := resolveUriLoop encoded full_path uris (uris.length + 2) 0
    (true, reg ++ [⟨doc.ID, fd.1, fd.2, descOf full_path doc.ModifiedClient⟩])

/-! ## Freshness of the collision loop -/

theorem string_eq_of_data_eq {a b : String} (h : a.data = b.data) : a = b := by
  cases a; cases b; exact congrArg String.mk h

theorem candidateUri_injective (e : String) : Function.Injective (candidateUri e) := by
  intro a b h
  match a, b with
  | 0, 0 => rfl
  | 0, n + 1 =>
    exfalso
    have hlen := congrArg (fun s => s.data.length) h
    simp only [candidateUri, String.data_append, List.length_append] at hlen
    have := strOfNat_data_pos (n + 1)
    omega
  | n + 1, 0 =>
    exfalso
    have hlen := congrArg (fun s => s.data.length) h
    simp only [candidateUri, String.data_append, List.length_append] at hlen
    have := strOfNat_data_pos (n + 1)
    omega
  | n + 1, m + 1 =>
    have hdata := congrArg String.data h
    simp only [candidateUri, String.data_append, List.append_assoc] at hdata
    have h1 := List.append_cancel_left hdata
    have h2 := List.append_cancel_left h1
    have h3 := List.append_cancel_left h2
    have h4 := List.append_cancel_right h3
    have := strOfNat_injective (string_eq_of_data_eq h4)
    omega

theorem candidateUri_exists_fresh (e : String) (uris : List String) :
    ∃ k, k < uris.length + 2 ∧ candidateUri e k ∉ uris := by
  by_contra hcon
  push_neg at hcon
  have hsub : ((List.range (uris.length + 2)).map (candidateUri e)) ⊆ uris := by
    intro x hx
    simp only [List.mem_map, List.mem_range] at hx
    obtain ⟨k, hk, rfl⟩ := hx
    exact hcon k hk
  have hnd : ((List.range (uris.length + 2)).map (candidateUri e)).Nodup :=
    (List.nodup_range _).map (candidateUri_injective e)
  have h1 : ((List.range (uris.length + 2)).map (candidateUri e)).toFinset.card
      = uris.length + 2 := by
    rw [List.toFinset_card_of_nodup hnd]
    simp
  have h2 : ((List.range (uris.length + 2)).map (candidateUri e)).toFinset
      ⊆ uris.toFinset := by
    intro x hx
    rw [List.mem_toFinset] at hx ⊢
    exact hsub hx
  have h3 := Finset.card_le_card h2
  have h4 := uris.toFinset_card_le
  omega

/-- The collision loop returns the first fresh candidate at or after its
starting index, provided a fresh candidate exists within the fuel. -/
theorem resolveUriLoop_spec (e p : String) (uris : List String) :
    ∀ fuel k, (∃ j, j < fuel ∧ candidateUri e (k + j) ∉ uris) →
    ∃ j, (∀ i, i < j → candidateUri e (k + i) ∈ uris) ∧
      candidateUri e (k + j) ∉ uris ∧
      resolveUriLoop e p uris fuel k = (candidateUri e (k + j), candidateLabel p (k + j)) := by
  intro fuel
  induction fuel with
  | zero =>
    intro k ⟨j, hj, _⟩
    omega
  | succ f ih =>
    intro k ⟨j, hj, hfresh⟩
    by_cases hk : candidateUri e k ∈ uris
    · have hj0 : j ≠ 0 := by
        intro h0
        rw [h0, Nat.add_zero] at hfresh
        exact hfresh hk
      obtain ⟨j', hj'⟩ := ih (k + 1) ⟨j - 1, by omega, by
        have : k + 1 + (j - 1) = k + j := by omega
        rw [this]
        exact hfresh⟩
      refine ⟨j' + 1, ?_, ?_, ?_⟩
      · intro i hi
        match i with
        | 0 => simpa using hk
        | i + 1 =>
          have := hj'.1 i (by omega)
          have harr : k + (i + 1) = k + 1 + i := by omega
          rw [harr]
          exact this
      · have harr : k + (j' + 1) = k + 1 + j' := by omega
        rw [harr]
        exact hj'.2.1
      · simp only [resolveUriLoop, hk, if_true]
        have harr : k + (j' + 1) = k + 1 + j' := by omega
        rw [harr]
        exact hj'.2.2
    · exact ⟨0, by omega, by simpa using hk, by simp [resolveUriLoop, hk]⟩

/-- For an unregistered item, `_register_document` returns `true` and
appends a single entry whose URI is the first fresh candidate. -/
theorem register_new (reg : Registry) (doc : Item)
    (idx : Option (List (String × Item))) (hnew : doc.ID ∉ registeredDocs reg) :
    ∃ k, (∀ i, i < k → candidateUri (encodedOf doc idx) i ∈ registeredUris reg) ∧
      candidateUri (encodedOf doc idx) k ∉ registeredUris reg ∧
      _register_document reg doc idx =
        (true, reg ++ [⟨doc.ID, candidateUri (encodedOf doc idx) k,
          candidateLabel (fullPathOf doc idx) k,
          descOf (fullPathOf doc idx) doc.ModifiedClient⟩]) := by
  obtain ⟨k, hk, hfresh⟩ :=
    candidateUri_exists_fresh (encodedOf doc idx) (registeredUris reg)
  obtain ⟨j, hmin, hjfresh, hloop⟩ :=
    resolveUriLoop_spec (encodedOf doc idx) (fullPathOf doc idx) (registeredUris reg)
      ((registeredUris reg).length + 2) 0 ⟨k, hk, by simpa using hfresh⟩
  refine ⟨j, by simpa using hmin, by simpa using hjfresh, ?_⟩
  simp only [_register_document, hnew, if_false]
  rw [hloop]
  simp

/-- A registered item id makes `_register_document` a `false` no-op. -/
theorem register_seen (reg : Registry) (doc : Item)
    (idx : Option (List (String × Item))) (hseen : doc.ID ∈ registeredDocs reg) :
    _register_document reg doc idx = (false, reg) := by
  simp [_register_document, hseen]

/-! ## The registry invariant -/

/-- The invariant of the two membership sets: registered ids are pairwise
distinct and registered URIs are pairwise distinct. -/
def RegInv (r : Registry) : Prop :=
  (registeredDocs r).Nodup ∧ (registeredUris r).Nodup

/-- One step of the registration fold used by the loaders. -/
def regStep (s : Registry) (p : Item × Option (List (String × Item))) : Registry :=
  (_register_document s p.1 p.2).2

theorem register_preserves_inv (reg : Registry) (doc : Item)
    (idx : Option (List (String × Item))) (h : RegInv reg) :
    RegInv (_register_document reg doc idx).2 := by
  by_cases hseen : doc.ID ∈ registeredDocs reg
  · rw [register_seen reg doc idx hseen]
    exact h
  · obtain ⟨k, _, hfresh, heq⟩ := register_new reg doc idx hseen
    rw [heq]
    constructor
    · simp only [registeredDocs, List.map_append, List.map_cons, List.map_nil,
        List.nodup_append]
      refine ⟨h.1, List.nodup_singleton _, ?_⟩
      intro x hx hx'
      simp only [List.mem_singleton] at hx'
      subst hx'
      exact hseen hx
    · simp only [registeredUris, List.map_append, List.map_cons, List.map_nil,
        List.nodup_append]
      refine ⟨h.2, List.nodup_singleton _, ?_⟩
      intro x hx hx'
      simp only [List.mem_singleton] at hx'
      subst hx'
      exact hfresh hx

theorem foldl_register_preserves_inv
    (l : List (Item × Option (List (String × Item)))) :
    ∀ r : Registry, RegInv r → RegInv (l.foldl regStep r) := by
  induction l with
  | nil => intro r h; simpa using h
  | cons p rest ih =>
    intro r h
    exact ih _ (register_preserves_inv r p.1 p.2 h)

/-- Entries are only ever appended by `_register_document`. -/
theorem register_mono (reg : Registry) (doc : Item)
    (idx : Option (List (String × Item))) :
    ∀ e ∈ reg, e ∈ (_register_document reg doc idx).2 := by
  intro e he
  by_cases hseen : doc.ID ∈ registeredDocs reg
  · rw [register_seen reg doc idx hseen]; exact he
  · obtain ⟨k, _, _, heq⟩ := register_new reg doc idx hseen
    rw [heq]
    exact List.mem_append_left _ he

theorem foldl_register_mono (l : List (Item × Option (List (String × Item)))) :
    ∀ (r : Registry), ∀ e ∈ r, e ∈ l.foldl regStep r := by
  induction l with
  | nil => intro r e he; simpa using he
  | cons p rest ih =>
    intro r e he
    exact ih _ _ (register_mono r p.1 p.2 e he)

theorem mem_registeredDocs {r : Registry} {id : String} :
    id ∈ registeredDocs r ↔ ∃ e ∈ r, e.docId = id := by
  simp [registeredDocs, List.mem_map]

/-- C1: After every finite sequence of calls to `_register_document`
(starting from any registry satisfying the invariant, in particular the
empty one), the registry invariant holds: registered ids are pairwise
distinct, registered URIs are pairwise distinct, and each registered
item id is associated with exactly one URI, even under repeated
registration calls for the same item. -/
theorem registry_invariant_holds
    (inputs : List (Item × Option (List (String × Item))))
    (r : Registry) (h : RegInv r) :
    (registeredDocs (inputs.foldl regStep r)).Nodup ∧
    (registeredUris (inputs.foldl regStep r)).Nodup ∧
    ∀ e₁ ∈ inputs.foldl regStep r, ∀ e₂ ∈ inputs.foldl regStep r,
      e₁.docId = e₂.docId → e₁.uri = e₂.uri := by
  obtain ⟨h1, h2⟩ := foldl_register_preserves_inv inputs r h
  refine ⟨h1, h2, ?_⟩
  intro e₁ h₁ e₂ h₂' heq
  have := List.inj_on_of_nodup_map (f := RegEntry.docId) h1 h₁ h₂' heq
  rw [this]

/-- Witness for C1: a concrete run on two items (one of them registered
twice) from the empty registry. -/
theorem registry_invariant_holds_witness :
    RegInv [] ∧
    (let docA : Item := ⟨"a", "Note", false, "", none⟩
     let docB : Item := ⟨"b", "Other", false, "", none⟩
     let inputs := [(docA, none), (docB, none), (docA, none)]
     (registeredDocs (inputs.foldl regStep [])).Nodup ∧
     (registeredUris (inputs.foldl regStep [])).Nodup ∧
     ∀ e₁ ∈ inputs.foldl regStep [], ∀ e₂ ∈ inputs.foldl regStep [],
       e₁.docId = e₂.docId → e₁.uri = e₂.uri) :=
  ⟨⟨List.nodup_nil, List.nodup_nil⟩,
   registry_invariant_holds _ [] ⟨List.nodup_nil, List.nodup_nil⟩⟩

/-- C7: once `_register_document` has returned `true` for an item, every
later call for the same item (after any interleaved sequence of other
registrations) returns `false` and leaves the registry unchanged, and
the entry recording the item's originally assigned URI persists
unaltered. -/
theorem register_idempotent (r : Registry) (doc : Item)
    (idx idx2 : Option (List (String × Item)))
    (rest : List (Item × Option (List (String × Item))))
    (h : (_register_document r doc idx).1 = true) :
    _register_document (rest.foldl regStep (_register_document r doc idx).2) doc idx2
      = (false, rest.foldl regStep (_register_document r doc idx).2) ∧
    ∀ e ∈ (_register_document r doc idx).2,
      e ∈ rest.foldl regStep (_register_document r doc idx).2 := by
  have hnew : doc.ID ∉ registeredDocs r := by
    intro hseen
    rw [register_seen r doc idx hseen] at h
    simp at h
  obtain ⟨k, _, _, heq⟩ := register_new r doc idx hnew
  have hmem : doc.ID ∈ registeredDocs (_register_document r doc idx).2 := by
    rw [heq]
    simp [registeredDocs]
  have hmem2 : doc.ID ∈ registeredDocs (rest.foldl regStep (_register_document r doc idx).2) := by
    rw [mem_registeredDocs] at hmem ⊢
    obtain ⟨e, he, hid⟩ := hmem
    exact ⟨e, foldl_register_mono rest _ e he, hid⟩
  exact ⟨register_seen _ doc idx2 hmem2, foldl_register_mono rest _⟩

/-- Witness for C7: register an item, then a second item, then the first
again; the repeated call is a `false` no-op. -/
theorem register_idempotent_witness :
    (let docA : Item := ⟨"a", "Note", false, "", none⟩
     (_register_document [] docA none).1 = true) ∧
    (let docA : Item := ⟨"a", "Note", false, "", none⟩
     let docB : Item := ⟨"b", "Other", false, "", none⟩
     _register_document ([(docB, none)].foldl regStep (_register_document [] docA none).2) docA none
       = (false, [(docB, none)].foldl regStep (_register_document [] docA none).2) ∧
     ∀ e ∈ (_register_document [] docA none).2,
       e ∈ [(docB, none)].foldl regStep (_register_document [] docA none).2) :=
  ⟨by decide, register_idempotent [] _ none none [(⟨"b", "Other", false, "", none⟩, none)]
    (by decide)⟩

/-! ## Collision disambiguation (C2) -/

/-- Does `hay` start with `needle`?  Embedding of Python's
`str.startswith` on character lists. -/
def startsWithSeq : List Char → List Char → Bool
  | [], _ => true
  | _ :: _, [] => false
  | a :: as, b :: bs => a = b && startsWithSeq as bs

/-- Does `hay` contain `needle` as a contiguous run?  Embedding of
Python's `needle in hay` on character lists. -/
def containsSeq (needle : List Char) : List Char → Bool
  | [] => startsWithSeq needle []
  | c :: rest => startsWithSeq needle (c :: rest) || containsSeq needle rest

/-- Does `hay` end with `needle`?  Embedding of Python's `str.endswith`
on character lists. -/
def endsWithSeq (needle hay : List Char) : Bool :=
  startsWithSeq needle.reverse hay.reverse

/-- C2 counterexample: for two distinct items whose paths yield the same
candidate URI, the second registered item's URI is
`remarkable://Note_1.txt` — the numeric disambiguator is inserted before
the `.txt` suffix, so the URI does not end in `_1` — and the
human-readable label is `/Note (1).txt`, which has ` (1)` appended
rather than the `_1` disambiguator (it does not contain `_1` at all). -/
theorem register_collision_counterexample :
    (_register_document
        (_register_document [] ⟨"a", "Note", false, "", none⟩ none).2
        ⟨"b", "Note", false, "", none⟩ none)
      = (true,
        [⟨"a", "remarkable://Note.txt", "/Note.txt", "Content from '/Note'"⟩,
         ⟨"b", "remarkable://Note_1.txt", "/Note (1).txt", "Content from '/Note'"⟩]) ∧
    endsWithSeq "_1".data "remarkable://Note_1.txt".data = false ∧
    containsSeq "_1".data "/Note (1).txt".data = false := by
  decide

/-- C2 (amended): the first-registered item keeps the undecorated
candidate URI; each subsequently registered colliding item gets, in call
order, the URI `remarkable://{encoded}_{k}.txt` (`k = 1, 2, …`, the
numeric disambiguator inserted before the `.txt` suffix) and the label
`{full_path} ({k}).txt`, where `k` is incremented past every URI already
in use. -/
theorem register_collision_amended :
    (∀ (r : Registry) (doc : Item) (idx : Option (List (String × Item))),
      doc.ID ∉ registeredDocs r →
      candidateUri (encodedOf doc idx) 0 ∈ registeredUris r →
      ∃ k, 1 ≤ k ∧
        (∀ i, i < k → candidateUri (encodedOf doc idx) i ∈ registeredUris r) ∧
        candidateUri (encodedOf doc idx) k ∉ registeredUris r ∧
        candidateUri (encodedOf doc idx) k
          = "remarkable://" ++ encodedOf doc idx ++ "_" ++ strOfNat k ++ ".txt" ∧
        candidateLabel (fullPathOf doc idx) k
          = fullPathOf doc idx ++ " (" ++ strOfNat k ++ ").txt" ∧
        _register_document r doc idx = (true, r ++ [⟨doc.ID,
          candidateUri (encodedOf doc idx) k,
          candidateLabel (fullPathOf doc idx) k,
          descOf (fullPathOf doc idx) doc.ModifiedClient⟩])) ∧
    ([(⟨"a", "Note", false, "", none⟩, none), (⟨"b", "Note", false, "", none⟩, none),
      (⟨"c", "Note", false, "", none⟩, none)].foldl regStep []
      = [⟨"a", "remarkable://Note.txt", "/Note.txt", "Content from '/Note'"⟩,
         ⟨"b", "remarkable://Note_1.txt", "/Note (1).txt", "Content from '/Note'"⟩,
         ⟨"c", "remarkable://Note_2.txt", "/Note (2).txt", "Content from '/Note'"⟩]) := by
  constructor
  · intro r doc idx hnew hcoll
    obtain ⟨k, hmin, hfresh, heq⟩ := register_new r doc idx hnew
    have hk : 1 ≤ k := by
      rcases Nat.eq_zero_or_pos k with h0 | h1
      · subst h0; exact absurd hcoll hfresh
      · exact h1
    obtain ⟨n, rfl⟩ : ∃ n, k = n + 1 := ⟨k - 1, by omega⟩
    exact ⟨n + 1, hk, hmin, hfresh, rfl, rfl, heq⟩
  · decide

/-- Witness for the amended C2: the second registration of a colliding
item, with the collision hypotheses discharged on a concrete registry. -/
theorem register_collision_amended_witness :
    (("b" : String) ∉ registeredDocs
        [⟨"a", "remarkable://Note.txt", "/Note.txt", "Content from '/Note'"⟩] ∧
      candidateUri (encodedOf ⟨"b", "Note", false, "", none⟩ none) 0 ∈ registeredUris
        [⟨"a", "remarkable://Note.txt", "/Note.txt", "Content from '/Note'"⟩]) ∧
    (∃ k, 1 ≤ k ∧
      (∀ i, i < k → candidateUri (encodedOf ⟨"b", "Note", false, "", none⟩ none) i
        ∈ registeredUris
          [⟨"a", "remarkable://Note.txt", "/Note.txt", "Content from '/Note'"⟩]) ∧
      candidateUri (encodedOf ⟨"b", "Note", false, "", none⟩ none) k ∉ registeredUris
        [⟨"a", "remarkable://Note.txt", "/Note.txt", "Content from '/Note'"⟩] ∧
      candidateUri (encodedOf ⟨"b", "Note", false, "", none⟩ none) k
        = "remarkable://" ++ encodedOf ⟨"b", "Note", false, "", none⟩ none
            ++ "_" ++ strOfNat k ++ ".txt" ∧
      candidateLabel (fullPathOf ⟨"b", "Note", false, "", none⟩ none) k
        = fullPathOf ⟨"b", "Note", false, "", none⟩ none
            ++ " (" ++ strOfNat k ++ ").txt" ∧
      _register_document
          [⟨"a", "remarkable://Note.txt", "/Note.txt", "Content from '/Note'"⟩]
          ⟨"b", "Note", false, "", none⟩ none
        = (true, [⟨"a", "remarkable://Note.txt", "/Note.txt", "Content from '/Note'"⟩]
            ++ [⟨"b",
              candidateUri (encodedOf ⟨"b", "Note", false, "", none⟩ none) k,
              candidateLabel (fullPathOf ⟨"b", "Note", false, "", none⟩ none) k,
              descOf (fullPathOf ⟨"b", "Note", false, "", none⟩ none) none⟩])) :=
  ⟨⟨by decide, by decide⟩,
   register_collision_amended.1
     [⟨"a", "remarkable://Note.txt", "/Note.txt", "Content from '/Note'"⟩]
     ⟨"b", "Note", false, "", none⟩ none (by decide) (by decide)⟩

/-! ## The background loader (`resources.py` lines 244-327)

`_load_documents_background` is embedded as a fuel-bounded state machine.
The document-store collaborator is an oracle `fetch` mapping (call index,
limit) to either an error or the item list returned by
`get_meta_items(limit=offset + batch_size)`.  The `shutdown_event` is
modelled by `cancelAt`: `is_set()` calls are numbered (`ticks`), and the
event reads as set from check number `cancelAt` on.  Delivery of an
`asyncio.CancelledError` at an `await` point is modelled by `irq`,
indexed by the await counter; since `CancelledError` is a
`BaseException`, the inner `except Exception` of lines 275-286 does not
catch it and the outer `except asyncio.CancelledError` of lines 322-324
re-raises it, which the model renders as the `raisedCancelled` outcome.
A trace records every observable action of the loop. -/

inductive Event where
  | checked (set_ : Bool) : Event
  | fetched (ok : Bool) : Event
  | slept (num den : Nat) : Event
  | offered (id : String) : Event
deriving DecidableEq, Repr

inductive LoaderExit where
  | done | cancelled | erroredOut | raisedCancelled | fuelOut
deriving DecidableEq, Repr

structure LoaderState where
  offset : Nat
  errors : Nat
  reg : Registry
  fetchCount : Nat
  ticks : Nat
  awaits : Nat
  trace : List Event
deriving DecidableEq, Repr

/-- Whether `shutdown_event.is_set()` returns `True` at check number
`ticks`: the event is set from check `cancelAt` on (never, if `none`). -/
def isSetAt (cancelAt : Option Nat) (ticks : Nat) : Bool :=
  match cancelAt with
  | none => false
  | some t => t ≤ ticks

/-- The per-batch `for` loop of lines 301-308: check the shutdown event
before each item, `break` on signal, otherwise call
`_register_document` (whose own exceptions are caught and skipped). -/
def registerBatch (cancelAt : Option Nat) (idx : List (String × Item)) :
    LoaderState → List Item → LoaderState
  | st, [] => st
  | st, doc :: rest =>
    if isSetAt cancelAt st.ticks then
      { st with ticks := st.ticks + 1, trace := st.trace ++ [Event.checked true] }
    else
      let st1 := { st with ticks := st.ticks + 1,
                           trace := st.trace ++ [Event.checked false, Event.offered doc.ID] }
      let st2 := { st1 with reg := (_register_document st1.reg doc (some idx)).2 }
      registerBatch cancelAt idx st2 rest

/-- One iteration of the `while True` loop of lines 261-320. -/
def loaderStep (fetch : Nat → Nat → Except Unit (List Item)) (cancelAt : Option Nat)
    (irq : Nat → Bool) (st : LoaderState) : LoaderState × Option LoaderExit :=
  if isSetAt cancelAt st.ticks then
    ({ st with ticks := st.ticks + 1, trace := st.trace ++ [Event.checked true] },
      some LoaderExit.cancelled)
  else
    let st := { st with ticks := st.ticks + 1, trace := st.trace ++ [Event.checked false] }
    if irq st.awaits then
      ({ st with awaits := st.awaits + 1 }, some LoaderExit.raisedCancelled)
    else
      let st := { st with awaits := st.awaits + 1 }
      match fetch st.fetchCount (st.offset + 10) with
      | Except.error _ =>
        let st := { st with fetchCount := st.fetchCount + 1, errors := st.errors + 1,
                            trace := st.trace ++ [Event.fetched false] }
        if 3 ≤ st.errors then (st, some LoaderExit.erroredOut)
        else if irq st.awaits then
          ({ st with awaits := st.awaits + 1 }, some LoaderExit.raisedCancelled)
        else
          ({ st with awaits := st.awaits + 1,
                     trace := st.trace ++ [Event.slept (2 ^ st.errors) 1] }, none)
      | Except.ok items =>
        let st := { st with fetchCount := st.fetchCount + 1, errors := 0,
                            trace := st.trace ++ [Event.fetched true] }
        let idx := get_items_by_id items
        let documents := items.filter (fun it => !it.isFolder)
        let batch := (documents.drop st.offset).take 10
        if batch.isEmpty then (st, some LoaderExit.done)
        else
          let st := registerBatch cancelAt idx st batch
          let st := { st with offset := st.offset + 10 }
          if irq st.awaits then
            ({ st with awaits := st.awaits + 1 }, some LoaderExit.raisedCancelled)
          else
            ({ st with awaits := st.awaits + 1,
                       trace := st.trace ++ [Event.slept 1 10] }, none)

/-- The full loop, bounded by fuel. -/
def loaderRun (fetch : Nat → Nat → Except Unit (List Item)) (cancelAt : Option Nat)
    (irq : Nat → Bool) : Nat → LoaderState → LoaderState × LoaderExit
  | 0, st => (st, LoaderExit.fuelOut)
  | fuel + 1, st =>
    let r := loaderStep fetch cancelAt irq st
    match r.2 with
    | some e => (r.1, e)
    | none => loaderRun fetch cancelAt irq fuel r.1

/-- The initial loader state (lines 255-259). -/
def initLoaderState : LoaderState := ⟨0, 0, [], 0, 0, 0, []⟩

/-- A store whose listing is static: `get_meta_items(limit=L)` returns
the first `L` items of the listing, on every call, with no errors. -/
def staticFetch (listing : List Item) : Nat → Nat → Except Unit (List Item) :=
  fun _ lim => Except.ok (listing.take lim)

/-- A store that fails the first `nerr` fetches and then behaves like a
static store. -/
def flakyFetch (listing : List Item) (nerr : Nat) : Nat → Nat → Except Unit (List Item) :=
  fun k lim => if k < nerr then Except.error () else Except.ok (listing.take lim)

/-- No cancellation delivery at any await point. -/
def noIrq : Nat → Bool := fun _ => false

/-- A root-level document item with the given id as name. -/
def c3Doc (s : String) : Item := ⟨s, s, false, "", none⟩

/-- A static store listing: one folder followed by eleven documents. -/
def c3Listing : List Item :=
  ⟨"F", "Folder", true, "", none⟩ ::
  [c3Doc "d0", c3Doc "d1", c3Doc "d2", c3Doc "d3", c3Doc "d4", c3Doc "d5",
   c3Doc "d6", c3Doc "d7", c3Doc "d8", c3Doc "d9", c3Doc "d10"]

/-- C3 (failing run): on a static listing of one folder followed by
eleven documents, an error-free, uncancelled run of the background
loader reaches DONE via an empty batch, yet the non-folder item `d9` is
never offered to `_register_document` (while `d8` and `d10` are): the
loop slices `documents[offset : offset + batch_size]` out of the
folder-filtered list but fetches with `limit = offset + batch_size`
applied to the unfiltered listing, so a folder shifts the indices and a
document is skipped. -/
theorem loader_skips_document_after_folder :
    c3Doc "d9" ∈ c3Listing ∧ (c3Doc "d9").isFolder = false ∧
    (loaderRun (staticFetch c3Listing) none noIrq 10 initLoaderState).2 = LoaderExit.done ∧
    Event.offered "d9" ∉ (loaderRun (staticFetch c3Listing) none noIrq 10 initLoaderState).1.trace ∧
    ("d9" : String) ∉ registeredDocs
      (loaderRun (staticFetch c3Listing) none noIrq 10 initLoaderState).1.reg ∧
    Event.offered "d8" ∈ (loaderRun (staticFetch c3Listing) none noIrq 10 initLoaderState).1.trace ∧
    Event.offered "d10" ∈ (loaderRun (staticFetch c3Listing) none noIrq 10 initLoaderState).1.trace := by
  decide

theorem registerBatch_errors (cancelAt : Option Nat) (idx : List (String × Item)) :
    ∀ (batch : List Item) (st : LoaderState),
      (registerBatch cancelAt idx st batch).errors = st.errors := by
  intro batch
  induction batch with
  | nil => intro st; rfl
  | cons doc rest ih =>
    intro st
    unfold registerBatch
    by_cases h : isSetAt cancelAt st.ticks = true
    · simp [h]
    · simp only [h, Bool.false_eq_true, if_false]
      rw [ih]

/-- C4: in every run of the background loader, a fetch error increments
the consecutive-error counter, sleeps `2^errors` time units and retries
the same offset with the registry untouched; a successful fetch resets
the counter to zero; the third consecutive error stops the loop
permanently (no further fetch), leaving already-registered documents in
the registry.  Demonstrated in general at the level of one loop
iteration, and on the two runs the spec describes (two errors then
success; three consecutive errors). -/
theorem loader_backoff_policy :
    (∀ (fetch : Nat → Nat → Except Unit (List Item)) (st : LoaderState),
      fetch st.fetchCount (st.offset + 10) = Except.error () →
      st.errors + 1 < 3 →
      (loaderStep fetch none noIrq st).2 = none ∧
      (loaderStep fetch none noIrq st).1.errors = st.errors + 1 ∧
      (loaderStep fetch none noIrq st).1.offset = st.offset ∧
      (loaderStep fetch none noIrq st).1.reg = st.reg ∧
      (loaderStep fetch none noIrq st).1.fetchCount = st.fetchCount + 1 ∧
      (loaderStep fetch none noIrq st).1.trace
        = st.trace ++ [Event.checked false, Event.fetched false,
            Event.slept (2 ^ (st.errors + 1)) 1]) ∧
    (∀ (fetch : Nat → Nat → Except Unit (List Item)) (st : LoaderState),
      fetch st.fetchCount (st.offset + 10) = Except.error () →
      3 ≤ st.errors + 1 →
      (loaderStep fetch none noIrq st).2 = some LoaderExit.erroredOut ∧
      (loaderStep fetch none noIrq st).1.reg = st.reg ∧
      (loaderStep fetch none noIrq st).1.fetchCount = st.fetchCount + 1 ∧
      (loaderStep fetch none noIrq st).1.trace
        = st.trace ++ [Event.checked false, Event.fetched false]) ∧
    (∀ (fetch : Nat → Nat → Except Unit (List Item)) (st : LoaderState)
      (items : List Item),
      fetch st.fetchCount (st.offset + 10) = Except.ok items →
      (loaderStep fetch none noIrq st).1.errors = 0) ∧
    (∀ (fetch : Nat → Nat → Except Unit (List Item)) (cancelAt : Option Nat)
      (irq : Nat → Bool) (fuel : Nat) (st st' : LoaderState) (e : LoaderExit),
      loaderStep fetch cancelAt irq st = (st', some e) →
      loaderRun fetch cancelAt irq (fuel + 1) st = (st', e)) ∧
    ((loaderRun (flakyFetch [c3Doc "d0"] 2) none noIrq 10 initLoaderState).2
        = LoaderExit.done ∧
      registeredDocs (loaderRun (flakyFetch [c3Doc "d0"] 2) none noIrq 10
        initLoaderState).1.reg = ["d0"] ∧
      Event.slept 2 1 ∈ (loaderRun (flakyFetch [c3Doc "d0"] 2) none noIrq 10
        initLoaderState).1.trace ∧
      Event.slept 4 1 ∈ (loaderRun (flakyFetch [c3Doc "d0"] 2) none noIrq 10
        initLoaderState).1.trace) ∧
    ((loaderRun (flakyFetch [c3Doc "d0"] 5) none noIrq 10
        { initLoaderState with reg := [⟨"x", "u", "l", "d"⟩] }).2
        = LoaderExit.erroredOut ∧
      (loaderRun (flakyFetch [c3Doc "d0"] 5) none noIrq 10
        { initLoaderState with reg := [⟨"x", "u", "l", "d"⟩] }).1.fetchCount = 3 ∧
      (loaderRun (flakyFetch [c3Doc "d0"] 5) none noIrq 10
        { initLoaderState with reg := [⟨"x", "u", "l", "d"⟩] }).1.reg
        = [⟨"x", "u", "l", "d"⟩]) := by
  refine ⟨?_, ?_, ?_, ?_, by decide, by decide⟩
  · intro fetch st hf herr
    simp only [loaderStep, isSetAt, noIrq, Bool.false_eq_true, if_false, hf]
    rw [if_neg (by omega)]
    simp
  · intro fetch st hf herr
    simp only [loaderStep, isSetAt, noIrq, Bool.false_eq_true, if_false, hf]
    rw [if_pos (by omega)]
    simp
  · intro fetch st items hf
    simp only [loaderStep, isSetAt, noIrq, Bool.false_eq_true, if_false, hf]
    by_cases hb : (((items.filter (fun it => !it.isFolder)).drop st.offset).take 10).isEmpty
    · simp [hb]
    · simp only [hb, Bool.false_eq_true, if_false]
      rw [registerBatch_errors]
  · intro fetch cancelAt irq fuel st st' e hstep
    unfold loaderRun
    rw [hstep]

/-- Witness for C4: each general conjunct applied at a concrete state
(backoff after a first error; stop at the third; reset on success; run
stops once the step exits). -/
theorem loader_backoff_policy_witness :
    (flakyFetch [c3Doc "d0"] 5 initLoaderState.fetchCount (initLoaderState.offset + 10)
        = Except.error () ∧
      initLoaderState.errors + 1 < 3 ∧
      ((loaderStep (flakyFetch [c3Doc "d0"] 5) none noIrq initLoaderState).2 = none ∧
        (loaderStep (flakyFetch [c3Doc "d0"] 5) none noIrq initLoaderState).1.errors
          = initLoaderState.errors + 1 ∧
        (loaderStep (flakyFetch [c3Doc "d0"] 5) none noIrq initLoaderState).1.offset
          = initLoaderState.offset ∧
        (loaderStep (flakyFetch [c3Doc "d0"] 5) none noIrq initLoaderState).1.reg
          = initLoaderState.reg ∧
        (loaderStep (flakyFetch [c3Doc "d0"] 5) none noIrq initLoaderState).1.fetchCount
          = initLoaderState.fetchCount + 1 ∧
        (loaderStep (flakyFetch [c3Doc "d0"] 5) none noIrq initLoaderState).1.trace
          = initLoaderState.trace ++ [Event.checked false, Event.fetched false,
              Event.slept (2 ^ (initLoaderState.errors + 1)) 1])) ∧
    (flakyFetch [c3Doc "d0"] 5 ({ initLoaderState with errors := 2 } : LoaderState).fetchCount
        (({ initLoaderState with errors := 2 } : LoaderState).offset + 10) = Except.error () ∧
      3 ≤ ({ initLoaderState with errors := 2 } : LoaderState).errors + 1 ∧
      ((loaderStep (flakyFetch [c3Doc "d0"] 5) none noIrq { initLoaderState with errors := 2 }).2
          = some LoaderExit.erroredOut ∧
        (loaderStep (flakyFetch [c3Doc "d0"] 5) none noIrq
          { initLoaderState with errors := 2 }).1.reg
          = ({ initLoaderState with errors := 2 } : LoaderState).reg ∧
        (loaderStep (flakyFetch [c3Doc "d0"] 5) none noIrq
          { initLoaderState with errors := 2 }).1.fetchCount
          = ({ initLoaderState with errors := 2 } : LoaderState).fetchCount + 1 ∧
        (loaderStep (flakyFetch [c3Doc "d0"] 5) none noIrq
          { initLoaderState with errors := 2 }).1.trace
          = ({ initLoaderState with errors := 2 } : LoaderState).trace
              ++ [Event.checked false, Event.fetched false])) ∧
    (staticFetch [] ({ initLoaderState with errors := 2 } : LoaderState).fetchCount
        (({ initLoaderState with errors := 2 } : LoaderState).offset + 10)
        = Except.ok ([] : List Item) ∧
      (loaderStep (staticFetch []) none noIrq { initLoaderState with errors := 2 }).1.errors
        = 0) ∧
    (loaderStep (staticFetch []) none noIrq initLoaderState
        = (⟨0, 0, [], 1, 1, 1, [Event.checked false, Event.fetched true]⟩,
           some LoaderExit.done) ∧
      loaderRun (staticFetch []) none noIrq 1 initLoaderState
        = (⟨0, 0, [], 1, 1, 1, [Event.checked false, Event.fetched true]⟩,
           LoaderExit.done)) :=
  ⟨⟨rfl, by decide,
    loader_backoff_policy.1 (flakyFetch [c3Doc "d0"] 5) initLoaderState
      rfl (by decide)⟩,
   ⟨rfl, by decide,
    loader_backoff_policy.2.1 (flakyFetch [c3Doc "d0"] 5)
      { initLoaderState with errors := 2 } rfl (by decide)⟩,
   ⟨rfl,
    loader_backoff_policy.2.2.1 (staticFetch []) { initLoaderState with errors := 2 }
      [] rfl⟩,
   ⟨by decide,
    loader_backoff_policy.2.2.2.1 (staticFetch []) none noIrq 0 initLoaderState
      ⟨0, 0, [], 1, 1, 1, [Event.checked false, Event.fetched true]⟩
      LoaderExit.done (by decide)⟩⟩

theorem registerBatch_inv (cancelAt : Option Nat) (idx : List (String × Item)) :
    ∀ (batch : List Item) (st : LoaderState), RegInv st.reg →
      RegInv (registerBatch cancelAt idx st batch).reg := by
  intro batch
  induction batch with
  | nil => intro st h; exact h
  | cons doc rest ih =>
    intro st h
    unfold registerBatch
    by_cases hc : isSetAt cancelAt st.ticks = true
    · simpa [hc] using h
    · simp only [hc, Bool.false_eq_true, if_false]
      exact ih _ (register_preserves_inv st.reg doc (some idx) h)

theorem loaderStep_inv (fetch : Nat → Nat → Except Unit (List Item)) (cancelAt : Option Nat)
    (irq : Nat → Bool) (st : LoaderState) (h : RegInv st.reg) :
    RegInv (loaderStep fetch cancelAt irq st).1.reg := by
  unfold loaderStep
  by_cases h1 : isSetAt cancelAt st.ticks = true
  · simpa [h1] using h
  · simp only [h1, Bool.false_eq_true, if_false]
    by_cases h2 : irq st.awaits = true
    · simpa [h2] using h
    · simp only [h2, Bool.false_eq_true, if_false]
      cases hf : fetch st.fetchCount (st.offset + 10) with
      | error e =>
        by_cases h3 : 3 ≤ st.errors + 1
        · simpa [hf, h3] using h
        · by_cases h4 : irq (st.awaits + 1) = true
          · simpa [hf, h3, h4] using h
          · simpa [hf, h3, h4] using h
      | ok items =>
        by_cases h5 :
            (((items.filter (fun it => !it.isFolder)).drop st.offset).take 10).isEmpty = true
        · simpa [hf, h5] using h
        · simp only [hf, h5, Bool.false_eq_true, if_false]
          have hb := registerBatch_inv cancelAt (get_items_by_id items)
            (((items.filter (fun it => !it.isFolder)).drop st.offset).take 10)
            { st with ticks := st.ticks + 1, awaits := st.awaits + 1,
                      fetchCount := st.fetchCount + 1, errors := 0,
                      trace := st.trace ++ [Event.checked false, Event.fetched true] }
            (by simpa using h)
          split <;> simpa using hb

theorem loaderRun_inv (fetch : Nat → Nat → Except Unit (List Item)) (cancelAt : Option Nat)
    (irq : Nat → Bool) : ∀ (fuel : Nat) (st : LoaderState), RegInv st.reg →
      RegInv (loaderRun fetch cancelAt irq fuel st).1.reg := by
  intro fuel
  induction fuel with
  | zero => intro st h; exact h
  | succ f ih =>
    intro st h
    have hs := loaderStep_inv fetch cancelAt irq st h
    unfold loaderRun
    cases hstep : (loaderStep fetch cancelAt irq st).2 with
    | none => simpa [hstep] using ih _ hs
    | some e => simpa [hstep] using hs

/-- C5: whenever the shutdown signal is set, the background loader
registers no further item: the signal is checked at the top of every
iteration (a set signal freezes the registry and exits with the
CANCELLED outcome) and before each item of a batch (a set signal aborts
the in-flight batch immediately, skipping its remaining items); once
set, the signal stays set at every later check; a cancellation delivered
at an await point makes the loop exit by re-raising it
(`raisedCancelled`) rather than swallowing it; and the id and URI sets
can never enter an inconsistent dual state: every run preserves the
registry invariant, and each entry contributes its id and its URI
together, so both sets always have equal size. -/
theorem loader_cancellation_policy :
    (∀ (cancelAt : Option Nat) (t t' : Nat),
      isSetAt cancelAt t = true → t ≤ t' → isSetAt cancelAt t' = true) ∧
    (∀ (fetch : Nat → Nat → Except Unit (List Item)) (cancelAt : Option Nat)
      (irq : Nat → Bool) (fuel : Nat) (st : LoaderState),
      isSetAt cancelAt st.ticks = true →
      (loaderRun fetch cancelAt irq fuel st).1.reg = st.reg ∧
      (0 < fuel → loaderRun fetch cancelAt irq fuel st
        = ({ st with ticks := st.ticks + 1, trace := st.trace ++ [Event.checked true] },
           LoaderExit.cancelled))) ∧
    (∀ (cancelAt : Option Nat) (idx : List (String × Item)) (st : LoaderState)
      (doc : Item) (rest : List Item),
      isSetAt cancelAt st.ticks = true →
      registerBatch cancelAt idx st (doc :: rest)
        = { st with ticks := st.ticks + 1, trace := st.trace ++ [Event.checked true] }) ∧
    (∀ (fetch : Nat → Nat → Except Unit (List Item)) (cancelAt : Option Nat)
      (irq : Nat → Bool) (st : LoaderState),
      isSetAt cancelAt st.ticks = false → irq st.awaits = true →
      (loaderStep fetch cancelAt irq st).2 = some LoaderExit.raisedCancelled) ∧
    (∀ (fetch : Nat → Nat → Except Unit (List Item)) (cancelAt : Option Nat)
      (irq : Nat → Bool) (fuel : Nat) (st : LoaderState),
      RegInv st.reg → RegInv (loaderRun fetch cancelAt irq fuel st).1.reg) ∧
    (∀ r : Registry, (registeredDocs r).length = (registeredUris r).length) := by
  refine ⟨?_, ?_, ?_, ?_, fun fetch cancelAt irq fuel st => loaderRun_inv fetch cancelAt irq fuel st, ?_⟩
  · intro cancelAt t t' h hle
    cases cancelAt with
    | none => simp [isSetAt] at h
    | some c =>
      simp only [isSetAt, decide_eq_true_eq] at h ⊢
      omega
  · intro fetch cancelAt irq fuel st h
    constructor
    · cases fuel with
      | zero => rfl
      | succ f => simp [loaderRun, loaderStep, h]
    · intro hf
      cases fuel with
      | zero => omega
      | succ f => simp [loaderRun, loaderStep, h]
  · intro cancelAt idx st doc rest h
    simp [registerBatch, h]
  · intro fetch cancelAt irq st h1 h2
    simp [loaderStep, h1, h2]
  · intro r
    simp [registeredDocs, registeredUris]

/-- Witness for C5: the conjuncts applied with the signal set from the
first check on (`cancelAt = some 0`) and with a cancellation delivered
at the first await. -/
theorem loader_cancellation_policy_witness :
    (isSetAt (some 0) 0 = true ∧ (0 : Nat) ≤ 5 ∧ isSetAt (some 0) 5 = true) ∧
    (isSetAt (some 0) initLoaderState.ticks = true ∧
      (loaderRun (staticFetch c3Listing) (some 0) noIrq 7 initLoaderState).1.reg
        = initLoaderState.reg ∧
      (0 < 7 → loaderRun (staticFetch c3Listing) (some 0) noIrq 7 initLoaderState
        = ({ initLoaderState with ticks := initLoaderState.ticks + 1, trace := initLoaderState.trace ++ [Event.checked true] },
           LoaderExit.cancelled))) ∧
    (registerBatch (some 0) [] initLoaderState [c3Doc "d0", c3Doc "d1"]
      = { initLoaderState with ticks := initLoaderState.ticks + 1, trace := initLoaderState.trace ++ [Event.checked true] }) ∧
    (isSetAt none initLoaderState.ticks = false ∧
      (fun _ => true : Nat → Bool) initLoaderState.awaits = true ∧
      (loaderStep (staticFetch c3Listing) none (fun _ => true) initLoaderState).2
        = some LoaderExit.raisedCancelled) ∧
    (RegInv initLoaderState.reg ∧
      RegInv (loaderRun (staticFetch c3Listing) none noIrq 7 initLoaderState).1.reg) :=
  ⟨⟨by decide, by decide, loader_cancellation_policy.1 (some 0) 0 5 (by decide) (by decide)⟩,
   ⟨by decide, loader_cancellation_policy.2.1 (staticFetch c3Listing) (some 0) noIrq 7
      initLoaderState (by decide)⟩,
   loader_cancellation_policy.2.2.1 (some 0) [] initLoaderState (c3Doc "d0") [c3Doc "d1"]
     (by decide),
   ⟨by decide, by decide, loader_cancellation_policy.2.2.2.1 (staticFetch c3Listing) none
      (fun _ => true) initLoaderState (by decide) (by decide)⟩,
   ⟨⟨List.nodup_nil, List.nodup_nil⟩,
    loader_cancellation_policy.2.2.2.2.1 (staticFetch c3Listing) none noIrq 7
      initLoaderState ⟨List.nodup_nil, List.nodup_nil⟩⟩⟩

/-! ## Sampling OCR (`sampling.py` lines 129-156)

`ocr_pages_via_sampling` loops over the page images, calling
`ocr_via_sampling` (an interactive model request) per page; the per-page
outcomes are supplied here as an oracle list of `Option String`
(`ocr_via_sampling` returns the extracted text or `None`).  Python
truthiness makes both `None` and the empty string count as a failed
page. -/

/-- Python truthiness of a per-page OCR result. -/
def pyTruthy (o : Option String) : Bool :=
  match o with
  | none => false
  | some s => s != ""

/-- The accumulation loop of lines 145-155: append the text of a
successful page, an empty-string placeholder for a failed one, and
remember whether any page succeeded. -/
def ocrPagesGo : List (Option String) → List String → Bool → Option (List String)
  | [], results, hasAny => if hasAny then some results else none
  | p :: ps, results, hasAny =>
    if pyTruthy p then ocrPagesGo ps (results ++ [p.getD ""]) true
    else ocrPagesGo ps (results ++ [""]) hasAny

/-- Embedding of `ocr_pages_via_sampling` over the per-page oracle. -/
def ocr_pages_via_sampling (pages : List (Option String)) : Option (List String) :=
  ocrPagesGo pages [] false

theorem ocrPagesGo_spec : ∀ (ps : List (Option String)) (acc : List String) (b : Bool),
    ocrPagesGo ps acc b
      = if b || ps.any pyTruthy then
          some (acc ++ ps.map (fun p => if pyTruthy p then p.getD "" else ""))
        else none := by
  intro ps
  induction ps with
  | nil =>
    intro acc b
    simp [ocrPagesGo]
  | cons p ps ih =>
    intro acc b
    simp only [ocrPagesGo]
    by_cases hp : pyTruthy p = true
    · rw [if_pos hp, ih]
      simp [hp, List.any_cons]
    · rw [if_neg hp, ih]
      simp only [List.any_cons, List.map_cons]
      rw [Bool.eq_false_iff.2 hp]
      simp [hp]

/-- C6: `ocr_pages_via_sampling` returns `None` exactly when every page
failed (a falsy per-page result); otherwise it returns a list of the
same length as the input, with the page's text at each successful index
and an empty-string placeholder at each failed index — demonstrated in
general and on the spec's three-page examples (middle page fails; all
pages fail). -/
theorem ocr_pages_batch_contract :
    (∀ pages : List (Option String),
      (ocr_pages_via_sampling pages = none ↔ ∀ p ∈ pages, pyTruthy p = false)) ∧
    (∀ (pages : List (Option String)) (l : List String),
      ocr_pages_via_sampling pages = some l →
      l.length = pages.length ∧
      l = pages.map (fun p => if pyTruthy p then p.getD "" else "")) ∧
    ocr_pages_via_sampling [some "alpha", none, some "beta"]
      = some ["alpha", "", "beta"] ∧
    ocr_pages_via_sampling [none, some "", none] = none := by
  refine ⟨?_, ?_, by decide, by decide⟩
  · intro pages
    rw [ocr_pages_via_sampling, ocrPagesGo_spec, Bool.false_or]
    by_cases h : pages.any pyTruthy = true
    · rw [if_pos h]
      constructor
      · intro hsome
        exact absurd hsome (Option.some_ne_none _)
      · intro hall
        obtain ⟨p, hp, hpt⟩ := List.any_eq_true.1 h
        rw [hall p hp] at hpt
        simp at hpt
    · have ha : pages.any pyTruthy = false := by simpa using h
      rw [if_neg h]
      simp only [true_iff]
      intro p hp
      have hx := List.any_eq_false.1 ha p hp
      simpa using hx
  · intro pages l h
    rw [ocr_pages_via_sampling, ocrPagesGo_spec] at h
    by_cases hc : (false || pages.any pyTruthy) = true
    · rw [if_pos hc] at h
      have hl : l = pages.map (fun p => if pyTruthy p then p.getD "" else "") := by
        simpa using h.symm
      refine ⟨?_, hl⟩
      rw [hl, List.length_map]
    · rw [if_neg hc] at h
      exact absurd h (by simp)

/-- Witness for C6: the three-page example with a failing middle page,
with the `some`-result hypothesis discharged by evaluation. -/
theorem ocr_pages_batch_contract_witness :
    ocr_pages_via_sampling [some "alpha", none, some "beta"]
      = some ["alpha", "", "beta"] ∧
    (["alpha", "", "beta"] : List String).length
      = ([some "alpha", none, some "beta"] : List (Option String)).length ∧
    (["alpha", "", "beta"] : List String)
      = ([some "alpha", none, some "beta"] : List (Option String)).map
          (fun p => if pyTruthy p then p.getD "" else "") :=
  ⟨rfl, ocr_pages_batch_contract.2.1 [some "alpha", none, some "beta"]
    ["alpha", "", "beta"] rfl⟩

/-! ## Fuzzy matching (`extract.py` lines 13-27)

`find_similar_documents` scores each candidate name with
`difflib.SequenceMatcher(None, query_lower, name_lower).ratio()`.  The
embedding reproduces difflib exactly for these inputs: autojunk only
activates for strings of 200+ characters, so the matcher runs junk-free;
`find_longest_match` is the classic dynamic programme (longest block,
ties to the lowest `i` then lowest `j`), `get_matching_blocks` recurses
on both sides of each block, and `ratio` is `2*M/T` where `M` is the
total matched size and `T` the combined length.  Scores are kept as
unreduced fractions (`Frac`) compared by cross-multiplication, which is
exactly the ordering of the corresponding real numbers. -/

/-- An unreduced nonnegative fraction `num / den`. -/
structure Frac where
  num : Nat
  den : Nat
deriving DecidableEq, Repr

/-- `p < q` as real numbers (cross-multiplication; dens positive). -/
def fracLt (p q : Frac) : Bool := p.num * q.den < q.num * p.den

/-- `p ≤ q` as real numbers (cross-multiplication; dens positive). -/
def fracLe (p q : Frac) : Prop := p.num * q.den ≤ q.num * p.den

instance (p q : Frac) : Decidable (fracLe p q) :=
  inferInstanceAs (Decidable (p.num * q.den ≤ q.num * p.den))

/-- One row of the difflib `j2len` dynamic programme: entry `j` of the
result is `prev[j-1] + 1` if `b[j]` equals the current character of `a`,
else `0`.  `diag` carries `prev[j-1]` as the row is walked. -/
def flmRowAux (x : Char) : List Char → List Nat → Nat → List Nat
  | [], _, _ => []
  | c :: bs, prev, diag =>
    (if c = x then diag + 1 else 0) :: flmRowAux x bs prev.tail (prev.headD 0)

def flmRow (x : Char) (b : List Char) (prev : List Nat) : List Nat :=
  flmRowAux x b prev 0

/-- Scan one row (`j` ascending), improving the best block only on a
strictly larger run — difflib's tie-breaking to lowest `i`, then `j`. -/
def scanRow (i : Nat) : List Nat → Nat → Nat × Nat × Nat → Nat × Nat × Nat
  | [], _, best => best
  | k :: rest, j, best =>
    scanRow i rest (j + 1) (if best.2.2 < k then (i + 1 - k, j + 1 - k, k) else best)

/-- The outer loop of `find_longest_match` over the characters of `a`. -/
def flmLoop (b : List Char) : List Char → Nat → List Nat → Nat × Nat × Nat → Nat × Nat × Nat
  | [], _, _, best => best
  | x :: as_, i, prev, best =>
    flmLoop b as_ (i + 1) (flmRow x b prev) (scanRow i (flmRow x b prev) 0 best)

/-- difflib's `find_longest_match` over whole lists (junk-free): returns
`(i, j, size)` of the longest matching block. -/
def find_longest_match (a b : List Char) : Nat × Nat × Nat :=
  flmLoop b a 0 (List.replicate b.length 0) (0, 0, 0)

/-- Total size matched by `get_matching_blocks`: recurse on both sides
of the longest block.  Structural fuel only; `a.length + 1` always
suffices because each recursive side is strictly shorter. -/
def matchBlocksTotal : Nat → List Char → List Char → Nat
  | 0, _, _ => 0
  | fuel + 1, a, b =>
    let r := find_longest_match a b
    if r.2.2 = 0 then 0
    else matchBlocksTotal fuel (a.take r.1) (b.take r.2.1) + r.2.2 +
         matchBlocksTotal fuel (a.drop (r.1 + r.2.2)) (b.drop (r.2.1 + r.2.2))

def matchTotal (a b : List Char) : Nat := matchBlocksTotal (a.length + 1) a b

/-- difflib's `ratio()`: `2*M/T` (and `1.0` for two empty sequences). -/
def seqScore (a b : List Char) : Frac :=
  if a.length + b.length = 0 then ⟨1, 1⟩
  else ⟨2 * matchTotal a b, a.length + b.length⟩

/-- The `ratio += 0.3` boost for substring matches, on fractions. -/
def addBoost (f : Frac) : Frac := ⟨10 * f.num + 3 * f.den, 10 * f.den⟩

/-- Embedding of Python's `str.lower()` (ASCII names). -/
def toLowerStr (s : String) : String := ⟨s.data.map Char.toLower⟩

/-- One iteration of the scoring loop of lines 17-24: ratio of the
lowercased query against the lowercased name, boosted by `0.3` when the
query occurs as a substring of the name. -/
def scoreEntry (query_lower : String) (doc : Item) : String × Frac :=
  let name := doc.VissibleName
  let r := seqScore query_lower.data (toLowerStr name).data
  (name, if containsSeq query_lower.data (toLowerStr name).data then addBoost r else r)

/-- Stable insertion for a descending sort by score: an element goes
after every earlier element with an equal or higher score, matching the
stable `list.sort(key=..., reverse=True)` of line 26. -/
def insertScoredDesc (x : String × Frac) : List (String × Frac) → List (String × Frac)
  | [] => [x]
  | y :: ys => if fracLe y.2 x.2 then x :: y :: ys else y :: insertScoredDesc x ys

/-- Stable descending sort by score (insertion sort; agrees with any
stable descending sort, in particular Python's). -/
def sortScoredDesc : List (String × Frac) → List (String × Frac)
  | [] => []
  | x :: xs => insertScoredDesc x (sortScoredDesc xs)

/-- The sorted-truncated-filtered scored list of line 27
(`scored[:limit]` then `score > 0.3`). -/
def rankedScored (query : String) (documents : List Item) (lim : Nat) :
    List (String × Frac) :=
  ((sortScoredDesc (documents.map (scoreEntry (toLowerStr query)))).take lim).filter
    (fun p => fracLt ⟨3, 10⟩ p.2)

/-- Embedding of `find_similar_documents` (`extract.py` lines 13-27). -/
def find_similar_documents (query : String) (documents : List Item) (lim : Nat) :
    List String :=
  (rankedScored query documents lim).map Prod.fst

theorem seqScore_den_pos (a b : List Char) : 0 < (seqScore a b).den := by
  unfold seqScore
  by_cases h : a.length + b.length = 0
  · simp [h]
  · simp only [h, if_false]
    omega

theorem addBoost_den_pos {f : Frac} (h : 0 < f.den) : 0 < (addBoost f).den := by
  simp only [addBoost]
  omega

theorem scoreEntry_den_pos (q : String) (d : Item) : 0 < (scoreEntry q d).2.den := by
  unfold scoreEntry
  by_cases h : containsSeq q.data (toLowerStr d.VissibleName).data = true
  · simpa [h] using addBoost_den_pos (seqScore_den_pos _ _)
  · simpa [h] using seqScore_den_pos q.data (toLowerStr d.VissibleName).data

theorem fracLe_total (p q : Frac) : fracLe p q ∨ fracLe q p :=
  Nat.le_total _ _

theorem fracLe_trans {p q r : Frac} (hq : 0 < q.den)
    (h1 : fracLe p q) (h2 : fracLe q r) : fracLe p r := by
  unfold fracLe at h1 h2 ⊢
  have ha := Nat.mul_le_mul_right r.den h1
  have hb := Nat.mul_le_mul_right p.den h2
  have hc : p.num * r.den * q.den ≤ r.num * p.den * q.den := by
    calc p.num * r.den * q.den = p.num * q.den * r.den := by ring
    _ ≤ q.num * p.den * r.den := ha
    _ = q.num * r.den * p.den := by ring
    _ ≤ r.num * q.den * p.den := hb
    _ = r.num * p.den * q.den := by ring
  exact Nat.le_of_mul_le_mul_right hc hq

/-- Scores weakly descending along the list. -/
def ScoresDesc (l : List (String × Frac)) : Prop :=
  l.Pairwise (fun x y => fracLe y.2 x.2)

theorem mem_insertScoredDesc {x a : String × Frac} :
    ∀ l, a ∈ insertScoredDesc x l ↔ a = x ∨ a ∈ l := by
  intro l
  induction l with
  | nil => simp [insertScoredDesc]
  | cons y ys ih =>
    unfold insertScoredDesc
    by_cases h : fracLe y.2 x.2
    · simp only [if_pos h, List.mem_cons]
    · simp only [if_neg h, List.mem_cons, ih]
      tauto

theorem insertScoredDesc_sorted (x : String × Frac) :
    ∀ l, (∀ p ∈ l, 0 < p.2.den) → ScoresDesc l → ScoresDesc (insertScoredDesc x l) := by
  intro l
  induction l with
  | nil =>
    intro _ _
    simp [insertScoredDesc, ScoresDesc]
  | cons y ys ih =>
    intro hden hs
    rw [ScoresDesc, List.pairwise_cons] at hs
    unfold insertScoredDesc
    by_cases h : fracLe y.2 x.2
    · rw [if_pos h, ScoresDesc, List.pairwise_cons]
      refine ⟨?_, List.pairwise_cons.2 hs⟩
      intro z hz
      rcases List.mem_cons.1 hz with rfl | hz'
      · exact h
      · exact fracLe_trans (hden y (List.mem_cons_self y ys)) (hs.1 z hz') h
    · rw [if_neg h, ScoresDesc, List.pairwise_cons]
      constructor
      · intro z hz
        rcases (mem_insertScoredDesc ys).1 hz with rfl | hz'
        · rcases fracLe_total z.2 y.2 with hx | hx
          · exact hx
          · exact absurd hx h
        · exact hs.1 z hz'
      · exact ih (fun p hp => hden p (List.mem_cons_of_mem y hp)) hs.2

theorem mem_sortScoredDesc {a : String × Frac} :
    ∀ l, a ∈ sortScoredDesc l ↔ a ∈ l := by
  intro l
  induction l with
  | nil => simp [sortScoredDesc]
  | cons x xs ih =>
    unfold sortScoredDesc
    rw [mem_insertScoredDesc, ih, List.mem_cons]

theorem sortScoredDesc_sorted :
    ∀ l, (∀ p ∈ l, 0 < p.2.den) → ScoresDesc (sortScoredDesc l) := by
  intro l
  induction l with
  | nil =>
    intro _
    simp [sortScoredDesc, ScoresDesc]
  | cons x xs ih =>
    intro hden
    unfold sortScoredDesc
    refine insertScoredDesc_sorted x _ ?_ (ih fun p hp => hden p (List.mem_cons_of_mem x hp))
    intro p hp
    exact hden p (List.mem_cons_of_mem x ((mem_sortScoredDesc xs).1 hp))

set_option maxRecDepth 4000 in
/-- C8: the fuzzy lookup scores each candidate by the difflib
edit-similarity, adds a fixed `+0.3` boost exactly when the lowercased
query occurs in the lowercased candidate, and returns at most `limit`
names, all with score strictly above `0.3`, in weakly descending score
order; on the spec's example, both meeting-containing names are returned
(ranked above `"Grocery List"`, which scores `4/19 < 0.3` and is dropped
by the threshold). -/
theorem find_similar_ranking :
    (∀ (query : String) (documents : List Item) (lim : Nat),
      (find_similar_documents query documents lim).length ≤ lim ∧
      find_similar_documents query documents lim
        = (rankedScored query documents lim).map Prod.fst ∧
      (∀ p ∈ rankedScored query documents lim, fracLt ⟨3, 10⟩ p.2 = true) ∧
      ScoresDesc (rankedScored query documents lim)) ∧
    (∀ (query_lower : String) (doc : Item),
      (containsSeq query_lower.data (toLowerStr doc.VissibleName).data = true →
        (scoreEntry query_lower doc).2
          = addBoost (seqScore query_lower.data (toLowerStr doc.VissibleName).data)) ∧
      (containsSeq query_lower.data (toLowerStr doc.VissibleName).data = false →
        (scoreEntry query_lower doc).2
          = seqScore query_lower.data (toLowerStr doc.VissibleName).data)) ∧
    find_similar_documents "meeting"
      [⟨"1", "Meeting Notes", false, "", none⟩, ⟨"2", "Grocery List", false, "", none⟩,
       ⟨"3", "Team Meeting", false, "", none⟩] 5
      = ["Team Meeting", "Meeting Notes"] ∧
    scoreEntry (toLowerStr "meeting") ⟨"2", "Grocery List", false, "", none⟩
      = ("Grocery List", ⟨4, 19⟩) := by
  refine ⟨?_, ?_, by decide, by decide⟩
  · intro query documents lim
    refine ⟨?_, rfl, ?_, ?_⟩
    · calc (find_similar_documents query documents lim).length
          = (rankedScored query documents lim).length := List.length_map _ _
      _ ≤ ((sortScoredDesc (documents.map (scoreEntry (toLowerStr query)))).take lim).length :=
          List.length_filter_le _ _
      _ ≤ lim := List.length_take_le _ _
    · intro p hp
      unfold rankedScored at hp
      exact (List.mem_filter.1 hp).2
    · have hsorted : ScoresDesc
          (sortScoredDesc (documents.map (scoreEntry (toLowerStr query)))) := by
        apply sortScoredDesc_sorted
        intro p hp
        obtain ⟨d, _, rfl⟩ := List.mem_map.1 hp
        exact scoreEntry_den_pos (toLowerStr query) d
      have hsub : List.Sublist (rankedScored query documents lim)
          (sortScoredDesc (documents.map (scoreEntry (toLowerStr query)))) :=
        (List.filter_sublist _).trans (List.take_sublist _ _)
      exact hsorted.sublist hsub
  · intro query_lower doc
    constructor
    · intro h
      simp [scoreEntry, h]
    · intro h
      simp [scoreEntry, h]

/-- Witness for C8: the boost conjuncts applied to concrete candidates,
one with and one without the query as a substring. -/
theorem find_similar_ranking_witness :
    (containsSeq ("meeting" : String).data (toLowerStr "Meeting Notes").data = true ∧
      (scoreEntry "meeting" ⟨"1", "Meeting Notes", false, "", none⟩).2
        = addBoost (seqScore ("meeting" : String).data (toLowerStr "Meeting Notes").data)) ∧
    (containsSeq ("meeting" : String).data (toLowerStr "Grocery List").data = false ∧
      (scoreEntry "meeting" ⟨"2", "Grocery List", false, "", none⟩).2
        = seqScore ("meeting" : String).data (toLowerStr "Grocery List").data) :=
  ⟨⟨by decide,
    (find_similar_ranking.2.1 "meeting" ⟨"1", "Meeting Notes", false, "", none⟩).1
      (by decide)⟩,
   ⟨by decide,
    (find_similar_ranking.2.1 "meeting" ⟨"2", "Grocery List", false, "", none⟩).2
      (by decide)⟩⟩

/-! ## The document-by-path resource handler (`resources.py` lines 37-87)

`document_resource` wraps its entire body in `try/except Exception`, so
every outcome is a returned string.  The collaborators that can raise —
`client.download` and `extract_text_from_document_zip` — are oracles
returning `Except` (their error rendering `str(e)` is the carried
string); the listing and path index are as in the loaders. -/

/-- Hex value of one character, if any. -/
def hexVal (c : Char) : Option Nat :=
  if '0' ≤ c ∧ c ≤ '9' then some (c.toNat - 48)
  else if 'A' ≤ c ∧ c ≤ 'F' then some (c.toNat - 55)
  else if 'a' ≤ c ∧ c ≤ 'f' then some (c.toNat - 87)
  else none

/-- Embedding of Python's `urllib.parse.unquote` restricted to
single-byte escapes: each `%XX` hex escape becomes the character with
code `XX`; malformed escapes pass through unchanged. -/
def unquoteChars : List Char → List Char
  | [] => []
  | '%' :: c1 :: c2 :: rest =>
    match hexVal c1, hexVal c2 with
    | some h, some l => Char.ofNat (16 * h + l) :: unquoteChars rest
    | _, _ => '%' :: unquoteChars (c1 :: c2 :: rest)
  | c :: rest => c :: unquoteChars rest

def unquoteModel (s : String) : String := ⟨unquoteChars s.data⟩

/-- The fields of the dict returned by `extract_text_from_document_zip`
that `document_resource` reads. -/
structure ExtractResult where
  typed_text : List String
  highlights : List String
  pages : Nat
deriving DecidableEq, Repr

/-- The `text_parts` accumulation of lines 75-82. -/
def textPartsOf (c : ExtractResult) : List String :=
  (if c.typed_text.isEmpty then [] else c.typed_text) ++
  (if c.highlights.isEmpty then [] else "\n--- Highlights ---" :: c.highlights)

/-- The document lookup of lines 51-57: first non-folder item whose
resolved path (leading slashes stripped) equals the decoded argument. -/
def findTarget (collection : List Item) (decoded : String) : Option Item :=
  collection.find? (fun it =>
    !it.isFolder && (lstripSlash (get_item_path it (get_items_by_id collection)) == decoded))

/-- Embedding of `document_resource` (`resources.py` lines 37-87). -/
def document_resource (path : String) (collection : List Item)
    (download : String → Except String Unit)
    (extractOf : String → Except String ExtractResult) : String :=
  let decoded := unquoteModel path
  match findTarget collection decoded with
  | none => "Document not found: '" ++ decoded ++ "'"
  | some target =>
    match download target.ID with
    | Except.error e => "Error reading document: " ++ e
    | Except.ok _ =>
      match extractOf target.ID with
      | Except.error e => "Error reading document: " ++ e
      | Except.ok content =>
        let text_parts := textPartsOf content
        if text_parts.isEmpty then "(No text content found)"
        else String.intercalate "\n\n" text_parts

/-- C9: the resource handler always returns a response — one of the four
message forms — and never raises: an unmatched decoded path yields a
message naming that path; a download or extraction error is rendered as
a plain-text error message; a found document with no extractable text
yields `"(No text content found)"`. -/
theorem document_resource_total :
    (∀ (path : String) (collection : List Item)
      (download : String → Except String Unit)
      (extractOf : String → Except String ExtractResult),
      findTarget collection (unquoteModel path) = none →
      document_resource path collection download extractOf
        = "Document not found: '" ++ unquoteModel path ++ "'") ∧
    (∀ path collection download extractOf (target : Item) (e : String),
      findTarget collection (unquoteModel path) = some target →
      download target.ID = Except.error e →
      document_resource path collection download extractOf
        = "Error reading document: " ++ e) ∧
    (∀ path collection download extractOf (target : Item) (e : String),
      findTarget collection (unquoteModel path) = some target →
      download target.ID = Except.ok () →
      extractOf target.ID = Except.error e →
      document_resource path collection download extractOf
        = "Error reading document: " ++ e) ∧
    (∀ path collection download extractOf (target : Item) (content : ExtractResult),
      findTarget collection (unquoteModel path) = some target →
      download target.ID = Except.ok () →
      extractOf target.ID = Except.ok content →
      content.typed_text = [] → content.highlights = [] →
      document_resource path collection download extractOf
        = "(No text content found)") ∧
    (∀ path collection download extractOf,
      document_resource path collection download extractOf
        = "Document not found: '" ++ unquoteModel path ++ "'" ∨
      (∃ e, document_resource path collection download extractOf
        = "Error reading document: " ++ e) ∨
      document_resource path collection download extractOf
        = "(No text content found)" ∨
      (∃ parts : List String, parts ≠ [] ∧
        document_resource path collection download extractOf
          = String.intercalate "\n\n" parts)) := by
  refine ⟨?_, ?_, ?_, ?_, ?_⟩
  · intro path collection download extractOf h
    simp [document_resource, h]
  · intro path collection download extractOf target e h1 h2
    simp [document_resource, h1, h2]
  · intro path collection download extractOf target e h1 h2 h3
    simp [document_resource, h1, h2, h3]
  · intro path collection download extractOf target content h1 h2 h3 ht hh
    simp [document_resource, h1, h2, h3, textPartsOf, ht, hh]
  · intro path collection download extractOf
    simp only [document_resource]
    cases hfind : findTarget collection (unquoteModel path) with
    | none => exact Or.inl rfl
    | some target =>
      dsimp only
      cases hdl : download target.ID with
      | error e => exact Or.inr (Or.inl ⟨e, rfl⟩)
      | ok u =>
        dsimp only
        cases hex : extractOf target.ID with
        | error e => exact Or.inr (Or.inl ⟨e, rfl⟩)
        | ok content =>
          dsimp only
          by_cases hp : (textPartsOf content).isEmpty = true
          · simp only [hp, if_true]
            exact Or.inr (Or.inr (Or.inl trivial))
          · simp only [hp, Bool.false_eq_true, if_false]
            refine Or.inr (Or.inr (Or.inr ⟨textPartsOf content, ?_, rfl⟩))
            simpa using hp

/-- Witness for C9: each branch exercised on a one-item collection. -/
theorem document_resource_total_witness :
    (findTarget [⟨"a", "Note", false, "", none⟩] (unquoteModel "Missing") = none ∧
      document_resource "Missing" [⟨"a", "Note", false, "", none⟩]
        (fun _ => Except.ok ()) (fun _ => Except.ok ⟨[], [], 0⟩)
        = "Document not found: '" ++ unquoteModel "Missing" ++ "'") ∧
    (document_resource "Note" [⟨"a", "Note", false, "", none⟩]
        (fun _ => Except.error "boom") (fun _ => Except.ok ⟨[], [], 0⟩)
        = "Error reading document: " ++ "boom") ∧
    (document_resource "Note" [⟨"a", "Note", false, "", none⟩]
        (fun _ => Except.ok ()) (fun _ => Except.error "bad zip")
        = "Error reading document: " ++ "bad zip") ∧
    (document_resource "Note" [⟨"a", "Note", false, "", none⟩]
        (fun _ => Except.ok ()) (fun _ => Except.ok ⟨[], [], 3⟩)
        = "(No text content found)") :=
  ⟨⟨by decide,
    document_resource_total.1 "Missing" [⟨"a", "Note", false, "", none⟩]
      (fun _ => Except.ok ()) (fun _ => Except.ok ⟨[], [], 0⟩) (by decide)⟩,
   document_resource_total.2.1 "Note" [⟨"a", "Note", false, "", none⟩]
     (fun _ => Except.error "boom") (fun _ => Except.ok ⟨[], [], 0⟩)
     ⟨"a", "Note", false, "", none⟩ "boom" (by decide) rfl,
   document_resource_total.2.2.1 "Note" [⟨"a", "Note", false, "", none⟩]
     (fun _ => Except.ok ()) (fun _ => Except.error "bad zip")
     ⟨"a", "Note", false, "", none⟩ "bad zip" (by decide) rfl rfl,
   document_resource_total.2.2.2.1 "Note" [⟨"a", "Note", false, "", none⟩]
     (fun _ => Except.ok ()) (fun _ => Except.ok ⟨[], [], 3⟩)
     ⟨"a", "Note", false, "", none⟩ ⟨[], [], 3⟩ (by decide) rfl rfl rfl rfl⟩

/-! ## `USBWebClient.get_meta_items` caching (`usb_web.py` lines 175-233)

The client keeps `_documents` (the cached listing) and
`_documents_by_id`.  `get_meta_items` serves from the cache when it can:
a non-empty cache and no limit returns the cached list as is; a limit
within the cached length returns a prefix slice; otherwise the device is
walked again.  The recursive HTTP walk over `/documents/` (lines
192-228) is network I/O and is supplied as the oracle `fetchResult`
mapping the limit to the (limit-truncated) listing it produces. -/

structure USBClientState where
  documents : List Item
  documentsById : List (String × Item)
deriving DecidableEq, Repr

/-- Embedding of `USBWebClient.get_meta_items`.  Returns the returned
list, the updated client state, and whether the device was contacted. -/
def get_meta_items (st : USBClientState) (fetchResult : Option Nat → List Item)
    (lim : Option Nat) : List Item × USBClientState × Bool :=
  match lim with
  | none =>
    if st.documents.isEmpty then
      let ds := fetchResult none
      (ds, ⟨ds, ds.map (fun d => (d.ID, d))⟩, true)
    else (st.documents, st, false)
  | some k =>
    if !st.documents.isEmpty && k ≤ st.documents.length then
      (st.documents.take k, st, false)
    else
      let ds := fetchResult (some k)
      (ds, ⟨ds, ds.map (fun d => (d.ID, d))⟩, true)

/-- C10: once `get_meta_items(limit=k)` has cached a listing truncated
to `k` items, a subsequent call with no limit returns that truncated
cached list without contacting the device, a call with `m ≤ k` returns
the first `m` cached items without contacting the device, and only a
call with `m` greater than the cached length triggers a full re-fetch
(which replaces the cache); a fetch on an empty cache populates it. -/
theorem usb_get_meta_items_cache (fetchResult : Option Nat → List Item)
    (c : List Item) (k : Nat) (hlen : c.length = k) (hpos : 0 < k) :
    get_meta_items ⟨c, c.map (fun d => (d.ID, d))⟩ fetchResult none
      = (c, ⟨c, c.map (fun d => (d.ID, d))⟩, false) ∧
    (∀ m, m ≤ k →
      get_meta_items ⟨c, c.map (fun d => (d.ID, d))⟩ fetchResult (some m)
        = (c.take m, ⟨c, c.map (fun d => (d.ID, d))⟩, false)) ∧
    (∀ m, k < m →
      get_meta_items ⟨c, c.map (fun d => (d.ID, d))⟩ fetchResult (some m)
        = (fetchResult (some m),
           ⟨fetchResult (some m), (fetchResult (some m)).map (fun d => (d.ID, d))⟩,
           true)) ∧
    (get_meta_items ⟨[], []⟩ fetchResult (some k)
      = (fetchResult (some k),
         ⟨fetchResult (some k), (fetchResult (some k)).map (fun d => (d.ID, d))⟩,
         true)) := by
  have hne : c.isEmpty = false := by
    cases c with
    | nil => simp at hlen; omega
    | cons x xs => rfl
  refine ⟨?_, ?_, ?_, ?_⟩
  · simp [get_meta_items, hne]
  · intro m hm
    simp [get_meta_items, hne, hlen, hm]
  · intro m hm
    have : ¬ m ≤ c.length := by omega
    simp [get_meta_items, hne, this]
  · have h0 : (0 : Nat) < k := hpos
    simp [get_meta_items]

/-- Witness for C10: a two-item cached listing. -/
theorem usb_get_meta_items_cache_witness :
    (([c3Doc "d0", c3Doc "d1"] : List Item).length = 2 ∧ (0 : Nat) < 2) ∧
    (get_meta_items ⟨[c3Doc "d0", c3Doc "d1"],
        [c3Doc "d0", c3Doc "d1"].map (fun d => (d.ID, d))⟩
        (fun _ => [c3Doc "d0", c3Doc "d1", c3Doc "d2"]) none
      = ([c3Doc "d0", c3Doc "d1"],
         ⟨[c3Doc "d0", c3Doc "d1"], [c3Doc "d0", c3Doc "d1"].map (fun d => (d.ID, d))⟩,
         false) ∧
    (∀ m, m ≤ 2 →
      get_meta_items ⟨[c3Doc "d0", c3Doc "d1"],
          [c3Doc "d0", c3Doc "d1"].map (fun d => (d.ID, d))⟩
          (fun _ => [c3Doc "d0", c3Doc "d1", c3Doc "d2"]) (some m)
        = ([c3Doc "d0", c3Doc "d1"].take m,
           ⟨[c3Doc "d0", c3Doc "d1"], [c3Doc "d0", c3Doc "d1"].map (fun d => (d.ID, d))⟩,
           false)) ∧
    (∀ m, 2 < m →
      get_meta_items ⟨[c3Doc "d0", c3Doc "d1"],
          [c3Doc "d0", c3Doc "d1"].map (fun d => (d.ID, d))⟩
          (fun _ => [c3Doc "d0", c3Doc "d1", c3Doc "d2"]) (some m)
        = ([c3Doc "d0", c3Doc "d1", c3Doc "d2"],
           ⟨[c3Doc "d0", c3Doc "d1", c3Doc "d2"],
            [c3Doc "d0", c3Doc "d1", c3Doc "d2"].map (fun d => (d.ID, d))⟩,
           true)) ∧
    (get_meta_items ⟨[], []⟩ (fun _ => [c3Doc "d0", c3Doc "d1", c3Doc "d2"]) (some 2)
      = ([c3Doc "d0", c3Doc "d1", c3Doc "d2"],
         ⟨[c3Doc "d0", c3Doc "d1", c3Doc "d2"],
          [c3Doc "d0", c3Doc "d1", c3Doc "d2"].map (fun d => (d.ID, d))⟩,
         true))) :=
  ⟨⟨by decide, by decide⟩,
   usb_get_meta_items_cache (fun _ => [c3Doc "d0", c3Doc "d1", c3Doc "d2"])
     [c3Doc "d0", c3Doc "d1"] 2 (by decide) (by decide)⟩

end RemarkableMCP
